import Mathlib

/-!
Shallow embedding of the result-extraction and aggregation pipeline of
`read_calc.py` and of the directory provisioner of `run_calc.py`.

Python strings are modelled as `String` (operated on through their `data`
character lists), floats as `ℚ`, numpy 1-d arrays as `List ℚ`, the
filesystem as a partial map from absolute path segment lists to file
contents, and raised exceptions as `Except String`.
-/

namespace CalcScripts

/-! ### Character and string primitives mirroring the Python operations -/

/-- Whitespace characters matched by the regex class used in
`re.split` (ASCII part of Python's regex whitespace). -/
def isPySpace (c : Char) : Bool :=
  c == ' ' || c == '\t' || c == '\n' || c == '\r' ||
  c == Char.ofNat 11 || c == Char.ofNat 12

/-- `leadsList pat s` : `pat` is an initial run of `s` (list version of a
startswith test, used to scan for substrings). -/
def leadsList : List Char → List Char → Bool
  | [], _ => true
  | _ :: _, [] => false
  | a :: t, b :: u => a == b && leadsList t u

/-- `leadsStr cwd p` : segment list `cwd` is an initial run of `p`; this
is `os.path.commonpath([cwd, p]) == cwd` for absolute paths. -/
def leadsStr : List String → List String → Bool
  | [], _ => true
  | _ :: _, [] => false
  | a :: t, b :: u => a == b && leadsStr t u

/-- `containsSub pat s` : `pat` occurs as a contiguous run inside `s`.
`re.search` with a metacharacter-free pattern is exactly this test. -/
def containsSub (pat : List Char) : List Char → Bool
  | [] => pat.isEmpty
  | c :: t => leadsList pat (c :: t) || containsSub pat t

/-- String-level substring test: models `re.search(<literal>, s)` being
non-`None` (and Python's `in` operator on strings). -/
def strContains (s pat : String) : Bool := containsSub pat.data s.data

/-- `captureAfter pat s` models `re.search(pat + r'(.+)', s)`: find the
leftmost occurrence of the literal `pat` that is followed by at least one
character other than a newline, and capture the greedy run of non-newline
characters after it. Returns `none` when the whole regex has no match. -/
def captureAfter (pat : List Char) : List Char → Option (List Char)
  | [] => none
  | c :: t =>
    if leadsList pat (c :: t) then
      let line := ((c :: t).drop pat.length).takeWhile (fun d => d ≠ '\n')
      if line.isEmpty then captureAfter pat t else some line
    else captureAfter pat t

/-- `re.search(marker + r'(.+)', s)` returning the captured group. -/
def searchCapture (marker s : String) : Option String :=
  (captureAfter marker.data s.data).map (fun l => String.mk l)

/-- `s.split('\n')` on character lists (`re.split(r'\n', s)` in the code:
the pattern has no metacharacters, so it is a plain split). -/
def splitOnNl : List Char → List (List Char)
  | [] => [[]]
  | c :: t =>
    if c == '\n' then [] :: splitOnNl t
    else
      match splitOnNl t with
      | [] => [[c]]
      | h :: r => (c :: h) :: r

/-- String-level `re.split(r'\n', s)`. -/
def splitNl (s : String) : List String := (splitOnNl s.data).map (fun l => String.mk l)

/-- Worker for `re.split(r'\s+', s)`: `acc` is the reversed current token,
`gap` records whether we are inside a whitespace run (whose token has
already been emitted). -/
def splitWsAux : List Char → List Char → Bool → List String
  | [], acc, gap => if gap then [""] else [String.mk acc.reverse]
  | c :: t, acc, gap =>
    if isPySpace c then
      if gap then splitWsAux t [] true
      else String.mk acc.reverse :: splitWsAux t [] true
    else splitWsAux t (c :: acc) false

/-- `re.split(r'\s+', s)`: split on maximal whitespace runs; a leading or
trailing run contributes an empty token, exactly as in Python. -/
def reSplitWs (l : List Char) : List String := splitWsAux l [] false

/-- Last `n` characters of a character list. -/
def takeLast (n : ℕ) (l : List Char) : List Char := (l.reverse.take n).reverse

/-- Python's `s[-4:]`. -/
def last4 (s : String) : String := String.mk (takeLast 4 s.data)

/-- `s.rsplit('_', 1)` when it yields two pieces: split at the last
underscore. `none` models the `ValueError`/short-list outcome when `s`
has no underscore. -/
def rsplitU (s : String) : Option (String × String) :=
  match (s.data.reverse).findIdx? (fun c => c == '_') with
  | none => none
  | some k =>
    some (String.mk (s.data.take (s.data.length - k - 1)),
          String.mk ((s.data.reverse.take k).reverse))

/-! ### Numeric literal parsing (Python `float(...)` / `int(...)`) -/

/-- Value of a digit run. -/
def digitsVal (l : List Char) : ℕ := l.foldl (fun a c => 10 * a + (c.toNat - 48)) 0

/-- Strip one optional leading sign, reporting whether it was `-`. -/
def applySign : List Char → Bool × List Char
  | '-' :: t => (true, t)
  | '+' :: t => (false, t)
  | l => (false, l)

/-- Parse a signed decimal integer run (the exponent of a float literal). -/
def parseExp (l : List Char) : Option ℤ :=
  let p := applySign l
  if p.2.isEmpty || !(p.2.all Char.isDigit) then none
  else some (if p.1 then -(digitsVal p.2 : ℤ) else (digitsVal p.2 : ℤ))

/-- Parse an unsigned mantissa `digits`, `digits.digits`, `.digits` or
`digits.` as an exact rational. -/
def parseUFrac (l : List Char) : Option ℚ :=
  let ip := l.takeWhile Char.isDigit
  let rest := l.drop ip.length
  match rest with
  | [] => if ip.isEmpty then none else some ((digitsVal ip : ℚ))
  | '.' :: fr =>
    if fr.all Char.isDigit && !(ip.isEmpty && fr.isEmpty) then
      some ((digitsVal ip : ℚ) + (digitsVal fr : ℚ) / (10 : ℚ) ^ fr.length)
    else none
  | _ => none

/-- Model of Python `float(s)` on decimal literals: optional surrounding
whitespace, optional sign, mantissa, optional `e`/`E` exponent. The float
value is idealised as the exact rational it denotes. -/
def parsePyFloat (s : String) : Option ℚ :=
  let l0 := s.data.dropWhile isPySpace
  let l1 := (l0.reverse.dropWhile isPySpace).reverse
  let p := applySign l1
  let mant := p.2.takeWhile (fun c => !(c == 'e' || c == 'E'))
  let rest := p.2.drop mant.length
  match parseUFrac mant with
  | none => none
  | some m =>
    match rest with
    | [] => some (if p.1 then -m else m)
    | _ :: ex =>
      match parseExp ex with
      | none => none
      | some e =>
        let v := m * (10 : ℚ) ^ e
        some (if p.1 then -v else v)

/-- Model of Python `int(s)` (used by `np.array(..., dtype=int)`). -/
def parsePyInt (s : String) : Option ℤ :=
  let l0 := s.data.dropWhile isPySpace
  let l1 := (l0.reverse.dropWhile isPySpace).reverse
  let p := applySign l1
  if p.2.isEmpty || !(p.2.all Char.isDigit) then none
  else some (if p.1 then -(digitsVal p.2 : ℤ) else (digitsVal p.2 : ℤ))

/-! ### Shell-wildcard matching (`fnmatch` / final `glob` component) -/

/-- Split a character list at the first `]`, returning the part before it
and the part after it; `none` if there is no `]`. -/
def spanTo : List Char → Option (List Char × List Char)
  | [] => none
  | c :: t =>
    if c == ']' then some ([], t)
    else (spanTo t).map (fun p => (c :: p.1, p.2))

/-- Parse the body of a `[...]` wildcard class (the part after `[`):
optional leading `!` negation, then a content run in which a `]` first
character is literal, closed by `]`. Returns (negated, content, rest of
the pattern); `none` when there is no closing `]` (then `[` is literal). -/
def extractClass (p : List Char) : Option (Bool × List Char × List Char) :=
  let q := match p with
    | '!' :: t => (true, t)
    | _ => (false, p)
  match q.2 with
  | ']' :: t => (spanTo t).map (fun pr => (q.1, ']' :: pr.1, pr.2))
  | _ => (spanTo q.2).map (fun pr => (q.1, pr.1, pr.2))

/-- Membership of a character in a class content list, with `a-b` ranges. -/
def classMem : List Char → Char → Bool
  | a :: '-' :: b :: rest, c => (a ≤ c && c ≤ b) || classMem rest c
  | a :: rest, c => c == a || classMem rest c
  | [], _ => false

/-- Fuelled shell-wildcard matcher: `*` matches any run, `?` any single
character, `[...]`/`[!...]` a character class; other characters are
literal. Every recursive call strictly decreases `pattern.length +
s.length`, so fuel `pattern.length + s.length + 1` never runs out. -/
def globMatchFuel : ℕ → List Char → List Char → Bool
  | 0, _, _ => false
  | _ + 1, [], s => s.isEmpty
  | n + 1, '*' :: p, s =>
    globMatchFuel n p s ||
      (match s with
       | [] => false
       | _ :: t => globMatchFuel n ('*' :: p) t)
  | n + 1, '?' :: p, s =>
    (match s with
     | [] => false
     | _ :: t => globMatchFuel n p t)
  | n + 1, '[' :: p, s =>
    (match extractClass p with
     | some cl =>
       (match s with
        | [] => false
        | c :: t => (classMem cl.2.1 c != cl.1) && globMatchFuel n cl.2.2 t)
     | none =>
       (match s with
        | '[' :: t => globMatchFuel n p t
        | _ => false))
  | n + 1, c :: p, s =>
    (match s with
     | b :: t => c == b && globMatchFuel n p t
     | [] => false)

/-- `fnmatch.fnmatch(s, pattern)` on a POSIX system (no case folding). -/
def globMatch (pat s : List Char) : Bool :=
  globMatchFuel (pat.length + s.length + 1) pat s

/-! ### Status classifier (`read_calc.status`, lines 25-32) -/

/-- Lifecycle stage of one calculation artifact. -/
inductive CalcStatus where
  | success
  | optFailed
  | codeFailed
  | running
deriving DecidableEq

/-- Classification of one artifact's text, in the fixed priority order of
the `if`/`elif` chain. The third `re.search` pattern is
`'Traceback (most recent call last):'`, in which the parentheses are a
regex *group*, so the literal searched for is
`"Traceback most recent call last:"` - without the parentheses. -/
def statusOf (s : String) : CalcStatus :=
  if strContains s "Optimization was successful" then CalcStatus.success
  else if strContains s "Optimization was not successful: " then CalcStatus.optFailed
  else if strContains s "Traceback most recent call last:" then CalcStatus.codeFailed
  else CalcStatus.running

/-! ### Result extractor (`read_calc.extract_results`) -/

/-- Content of one artifact file: a text log or a serialized numpy array. -/
inductive Content where
  | text (s : String)
  | npy (vals : List ℚ)
deriving DecidableEq

/-- The filesystem: absolute paths (as segment lists) to contents. -/
abbrev FS := List String → Option Content

/-- `open(filename).read()`: succeeds exactly on existing text files. -/
def readText (fs : FS) (p : List String) : Except String String :=
  match fs p with
  | some (Content.text s) => Except.ok s
  | _ => Except.error "FileNotFoundError"

/-- `np.load(filename)`: succeeds exactly on existing `.npy` artifacts. -/
def readNpy (fs : FS) (p : List String) : Option (List ℚ) :=
  match fs p with
  | some (Content.npy l) => some l
  | _ => none

/-- A parsed value: text artifacts store the captured substring, binary
artifacts store the loaded number (Python keeps strings until
`select_results` converts them with `float`). -/
inductive Val where
  | str (s : String)
  | num (q : ℚ)
deriving DecidableEq

/-- One entry of the `output` list of `extract_results`: the keys of
`dict_calc`. `index`/`sigma` are `none` when the key is absent. -/
structure Record where
  wfn : String
  index : Option String
  sigma : Option String
  system : String
  basis : String
  orbital : String
  filename : String
  energy : Val
  nuc_nuc : Val
deriving DecidableEq

/-- Status of a matched file as the classifier sees it (`none` when the
file is missing or not a text file, in which case `open` would raise). -/
def classOf (fs : FS) (p : List String) : Option CalcStatus :=
  match fs p with
  | some (Content.text s) => some (statusOf s)
  | _ => none

/-- The partitioning loop of `status`: read every matched file and sort it
into the four lists (success, opt_failed, code_failed, running). -/
def statusLists (fs : FS) :
    List (List String) →
    Except String (List (List String) × List (List String) × List (List String) × List (List String))
  | [] => Except.ok ([], [], [], [])
  | p :: rest =>
    match readText fs p with
    | Except.error e => Except.error e
    | Except.ok s =>
      match statusLists fs rest with
      | Except.error e => Except.error e
      | Except.ok (a, b, c, d) =>
        match statusOf s with
        | CalcStatus.success => Except.ok (p :: a, b, c, d)
        | CalcStatus.optFailed => Except.ok (a, p :: b, c, d)
        | CalcStatus.codeFailed => Except.ok (a, b, p :: c, d)
        | CalcStatus.running => Except.ok (a, b, c, p :: d)

/-- Body of the extraction loop once the path relative to the working
root has been split into segments (`split_filename` onward).
`Except.ok none` models `continue`, `Except.error` an uncaught raise. -/
def processSplit (fs : FS) (is_complete : Bool) (p : List String) :
    List String → Except String (Option Record)
  | [_, system_basis, orbital, wfn, index, fname] =>
    (match readText fs p with
     | Except.error e => Except.error e
     | Except.ok results =>
       if results = "" then Except.ok none
       else
         match searchCapture "Nuclear-nuclear repulsion: " results with
         | none => Except.error "AttributeError"
         | some nuc_nuc =>
           if is_complete then
             match searchCapture "Final Energy: " results with
             | none => Except.error "AttributeError"
             | some energy =>
               match rsplitU system_basis with
               | none => Except.error "ValueError"
               | some sb =>
                 Except.ok (some
                   { wfn := wfn, index := some index, sigma := none,
                     system := sb.1, basis := sb.2, orbital := orbital,
                     filename := fname, energy := Val.str energy,
                     nuc_nuc := Val.str nuc_nuc })
           else
             match (splitNl results).reverse with
             | _ :: lastline :: _ =>
               if strContains lastline "Iterat" then Except.ok none
               else
                 match reSplitWs lastline.data with
                 | _ :: _ :: energy :: _ :: sigma :: _ =>
                   match rsplitU system_basis with
                   | none => Except.error "ValueError"
                   | some sb =>
                     Except.ok (some
                       { wfn := wfn, index := some index, sigma := some sigma,
                         system := sb.1, basis := sb.2, orbital := orbital,
                         filename := fname, energy := Val.str energy,
                         nuc_nuc := Val.str nuc_nuc })
                 | _ => Except.error "ValueError"
             | _ => Except.error "IndexError")
  | [_, system_basis, orbital, fname] =>
    (match readNpy fs p with
     | some [energy, nuc_nuc] =>
       match rsplitU system_basis with
       | none => Except.error "ValueError"
       | some sb =>
         Except.ok (some
           { wfn := "hf", index := none, sigma := none,
             system := sb.1, basis := sb.2, orbital := orbital,
             filename := fname, energy := Val.num energy,
             nuc_nuc := Val.num nuc_nuc })
     | _ => Except.error "ValueError")
  | _ => Except.error "NotImplementedError"

/-- One iteration of the `for` loop of `extract_results` for the absolute
path `p`: skip it silently when it resolves outside the working root
(`os.path.commonpath([cwd, filename]) != cwd`), otherwise process the
root-relative segments. -/
def processFile (fs : FS) (cwd : List String) (is_complete : Bool) (p : List String) :
    Except String (Option Record) :=
  if leadsStr cwd p then
    processSplit fs is_complete p (p.drop cwd.length)
  else Except.ok none

/-- The extraction loop over `filenames + running`, each path tagged with
its `is_complete` flag. -/
def extractLoop (fs : FS) (cwd : List String) :
    List (List String × Bool) → Except String (List Record)
  | [] => Except.ok []
  | pc :: rest =>
    match processFile fs cwd pc.2 pc.1 with
    | Except.error e => Except.error e
    | Except.ok none => extractLoop fs cwd rest
    | Except.ok (some r) =>
      match extractLoop fs cwd rest with
      | Except.error e => Except.error e
      | Except.ok l => Except.ok (r :: l)

/-- `extract_results(pattern)` given the working root and the list of
absolute paths the glob produced. A pattern ending in neither `.out` nor
`.npy` leaves `filenames` unbound, raised at the loop header. -/
def extract_results (fs : FS) (cwd : List String) (pat : String)
    (globFiles : List (List String)) : Except String (List Record) :=
  if last4 pat = ".out" then
    match statusLists fs globFiles with
    | Except.error e => Except.error e
    | Except.ok (succ, _, _, run) =>
      extractLoop fs cwd (succ.map (fun p => (p, true)) ++ run.map (fun p => (p, false)))
  else if last4 pat = ".npy" then
    extractLoop fs cwd (globFiles.map (fun p => (p, true)))
  else Except.error "UnboundLocalError"

/-- `true` exactly on non-raising outcomes. -/
def isOkE {α : Type} : Except String α → Bool
  | Except.ok _ => true
  | Except.error _ => false

/-! ### Result selector (`read_calc.select_results`) -/

/-- Python `float(...)` applied to a stored value: a loaded numpy float
is already a float, a captured string goes through literal parsing. -/
def pyFloat : Val → Option ℚ
  | Val.num q => some q
  | Val.str s => parsePyFloat s

/-- The filter of `select_results`: shell-wildcard match on `system`,
exact equality on `basis`, `orbital` and `wfn`. -/
def keepR (sysPat basis orbital wfn : String) (r : Record) : Bool :=
  globMatch sysPat.data r.system.data && r.basis == basis &&
    r.orbital == orbital && r.wfn == wfn

/-- The accumulation loop of `select_results`: for each surviving record
append `system.rsplit('_', 1)[1]`, `float(energy) + float(nuc_nuc)` and
the raw `sigma` entry (`none` models the `KeyError` -> `0` default). -/
def selectLoop (sysPat basis orbital wfn : String) :
    List Record → Except String (List String × List ℚ × List (Option String))
  | [] => Except.ok ([], [], [])
  | r :: rest =>
    if keepR sysPat basis orbital wfn r then
      match rsplitU r.system with
      | none => Except.error "IndexError"
      | some pr =>
        match pyFloat r.energy, pyFloat r.nuc_nuc with
        | some e, some n =>
          (match selectLoop sysPat basis orbital wfn rest with
           | Except.error err => Except.error err
           | Except.ok (xs, ys, es) =>
             Except.ok (pr.2 :: xs, (e + n) :: ys, r.sigma :: es))
        | _, _ => Except.error "ValueError"
    else selectLoop sysPat basis orbital wfn rest

/-- `np.array(output_x, dtype=int)`: convert every collected suffix. -/
def convInts : List String → Except String (List ℤ)
  | [] => Except.ok []
  | s :: t =>
    match parsePyInt s with
    | none => Except.error "ValueError"
    | some v =>
      match convInts t with
      | Except.error e => Except.error e
      | Except.ok l => Except.ok (v :: l)

/-- `np.array(output_error, dtype=float)`: a missing `sigma` became the
integer `0`, a present one is a string to convert. -/
def convErrs : List (Option String) → Except String (List ℚ)
  | [] => Except.ok []
  | none :: t =>
    (match convErrs t with
     | Except.error e => Except.error e
     | Except.ok l => Except.ok ((0 : ℚ) :: l))
  | some s :: t =>
    match parsePyFloat s with
    | none => Except.error "ValueError"
    | some v =>
      match convErrs t with
      | Except.error e => Except.error e
      | Except.ok l => Except.ok (v :: l)

/-- `select_results(results, system, basis, orbital, wfn)`. -/
def select_results (results : List Record) (sysPat basis orbital wfn : String) :
    Except String (List ℤ × List ℚ × List ℚ) :=
  match selectLoop sysPat basis orbital wfn results with
  | Except.error e => Except.error e
  | Except.ok (xs, ys, es) =>
    match convInts xs with
    | Except.error e => Except.error e
    | Except.ok xi =>
      match convErrs es with
      | Except.error e => Except.error e
      | Except.ok ef => Except.ok (xi, ys, ef)

/-- Numeric suffix of `system` after its last underscore, as
`select_results` computes it (meaningful when the parses succeed). -/
def selX (r : Record) : ℤ := ((rsplitU r.system).bind (fun pr => parsePyInt pr.2)).getD 0

/-- `float(energy) + float(nuc_nuc)` (meaningful when the parses succeed). -/
def selY (r : Record) : ℚ := (pyFloat r.energy).getD 0 + (pyFloat r.nuc_nuc).getD 0

/-- The uncertainty column: `0` when the record has no `sigma` key. -/
def selErr (r : Record) : ℚ :=
  match r.sigma with
  | none => 0
  | some s => (parsePyFloat s).getD 0

/-- All conversions a kept record undergoes succeed. -/
def goodRec (r : Record) : Bool :=
  (match rsplitU r.system with
   | none => false
   | some pr => (parsePyInt pr.2).isSome) &&
  (pyFloat r.energy).isSome && (pyFloat r.nuc_nuc).isSome &&
  (match r.sigma with
   | none => true
   | some s => (parsePyFloat s).isSome)

/-! ### Reducer (`read_calc.trim`) -/

/-- Round half away from zero at the integer scale, matching the decimal
behaviour of `np.around` on values that are not exact ties (the model's
tie direction; ties at the 9th decimal digit are immaterial to every
claim, which compare `trim` against the same rounding map). -/
def roundQ (q : ℚ) : ℤ := Rat.floor (q + 1 / 2)

/-- `np.around(v, 8)`: round to 8 decimal places. -/
def round8 (q : ℚ) : ℚ := (roundQ (q * (10 : ℚ) ^ 8) : ℚ) / (10 : ℚ) ^ 8

/-- Remove adjacent duplicates (on a sorted list this deduplicates). -/
def dedupSorted : List ℚ → List ℚ
  | [] => []
  | [a] => [a]
  | a :: b :: t => if a = b then dedupSorted (b :: t) else a :: dedupSorted (b :: t)

/-- `np.unique(v)`: the sorted list of distinct values. -/
def uniqueSorted (l : List ℚ) : List ℚ :=
  dedupSorted (List.insertionSort (fun a b : ℚ => a ≤ b) l)

/-- Python `min` over a list (`trim` only calls it on nonempty input). -/
def listMin : List ℚ → ℚ
  | [] => 0
  | a :: t => t.foldl min a

/-- `np.argmax`: index of the first maximal entry. -/
def argmaxFirst (l : List ℕ) : ℕ :=
  (l.foldl
    (fun acc v =>
      if v > acc.2.1 then (acc.2.2, v, acc.2.2 + 1) else (acc.1, acc.2.1, acc.2.2 + 1))
    ((0, 0, 0) : ℕ × ℕ × ℕ)).1

/-- `y[x == i]`: the energies whose paired index equals `i`. -/
def valsAt (x : List ℤ) (y : List ℚ) (i : ℤ) : List ℚ :=
  (x.zip y).filterMap (fun p => if p.1 = i then some p.2 else none)

/-- Contribution of one scan index `i` to the output of `trim`, as
(index, energy) pairs: skip when `np.all(x != i)`; otherwise round,
deduplicate, and keep according to the policy. An unknown policy keeps
nothing (no branch of the `if`/`elif` chain appends). -/
def trimBlock (x : List ℤ) (y : List ℚ) (keep : String) (i : ℕ) : List (ℤ × ℚ) :=
  if (i : ℤ) ∈ x then
    if keep = "all" then
      (uniqueSorted ((valsAt x y (i : ℤ)).map round8)).map (fun v => ((i : ℤ), v))
    else if keep = "min" then
      [((i : ℤ), listMin (uniqueSorted ((valsAt x y (i : ℤ)).map round8)))]
    else if keep = "frequent" then
      [((i : ℤ), (uniqueSorted ((valsAt x y (i : ℤ)).map round8)).getD
          (argmaxFirst ((uniqueSorted ((valsAt x y (i : ℤ)).map round8)).map
            (fun v => ((valsAt x y (i : ℤ)).map round8).count v))) 0)]
    else []
  else []

/-- The pairs appended by `trim` over the fixed scan range `range(50)`. -/
def trimPairs (x : List ℤ) (y : List ℚ) (keep : String) : List (ℤ × ℚ) :=
  (List.range 50).flatMap (trimBlock x y keep)

/-- `trim(x, y, keep)`: the two parallel output arrays. -/
def trim (x : List ℤ) (y : List ℚ) (keep : String) : List ℤ × List ℚ :=
  (trimPairs x y keep).unzip

/-- The output energies of `trim` paired with scan index `i`, in order. -/
def atIdx (r : List ℤ × List ℚ) (i : ℤ) : List ℚ :=
  (r.1.zip r.2).filterMap (fun p => if p.1 = i then some p.2 else none)

/-! ### Directory provisioner (`run_calc.make_dirs`, lines 36-67) -/

/-- Filesystem state for the provisioner: the set of directories in the
working directory and the files inside them, keyed by
(directory, basename) as produced by `os.path.join`. -/
structure DirState where
  dirs : List String
  files : List ((String × String) × String)
deriving DecidableEq

/-- Content of a file, `none` when `os.path.isfile` is false. -/
def getFile (st : DirState) (k : String × String) : Option String :=
  (st.files.find? (fun e => e.1 = k)).map (fun e => e.2)

/-- `dir_basename.format(i)` for `f'{name}_{se}_{{}}_{basis}'`. -/
def fmtDir (name se basis i : String) : String :=
  name ++ "_" ++ se ++ "_" ++ i ++ "_" ++ basis

/-- `os.mkdir(dirname)` followed by writing `system.xyz2` and copying the
basis `.gbs` file when it exists: raises `FileExistsError` when the
directory already exists, otherwise never touches other directories. -/
def mkdirWrite (st : DirState) (dirname basis xyz : String) : Except String DirState :=
  if dirname ∈ st.dirs then Except.error "FileExistsError"
  else
    match getFile st ("basis", basis ++ ".gbs") with
    | some g =>
      Except.ok { dirs := dirname :: st.dirs,
                  files := ((dirname, basis ++ ".gbs"), g) ::
                    ((dirname, "system.xyz2"), xyz) :: st.files }
    | none =>
      Except.ok { dirs := dirname :: st.dirs,
                  files := ((dirname, "system.xyz2"), xyz) :: st.files }

/-- `glob.glob(dir_basename.format('*'))`: the sibling entries matching
the wildcard directory name. -/
def sibDirs (name se basis : String) (st : DirState) : List String :=
  st.dirs.filter (fun d => globMatch (fmtDir name se basis "*").data d.data)

/-- The collision check: some matching sibling stores a `system.xyz2`
whose content equals the newly generated structure byte-for-byte. -/
def sibMatch (name se basis : String) (st : DirState) (xyz : String) : Bool :=
  (sibDirs name se basis st).any (fun d => getFile st (d, "system.xyz2") == some xyz)

/-- The bumped directory name `dir_basename.format(i + len(other_dirnames))`. -/
def bumpDir (name se basis : String) (st : DirState) (i : ℕ) : String :=
  fmtDir name se basis (toString (i + (sibDirs name se basis st).length))

/-- One step of the loop of `make_dirs` for step index `i` and generated
structure `xyz`. When the target directory exists: gather the sibling
entries matching `dir_basename.format('*')`; if any of them stores a
`system.xyz2` identical to `xyz`, skip (`continue`); otherwise move the
index to `i + len(other_dirnames)` and create that directory. -/
def makeDirsStep (name se basis : String) (st : DirState) (i : ℕ) (xyz : String) :
    Except String DirState :=
  if fmtDir name se basis (toString i) ∈ st.dirs then
    if sibMatch name se basis st xyz then Except.ok st
    else mkdirWrite st (bumpDir name se basis st i) basis xyz
  else mkdirWrite st (fmtDir name se basis (toString i)) basis xyz

/-! ### Concrete fixtures used to instantiate the theorems -/

/-- Working root used by the concrete scenarios. -/
def cwdW : List String := ["r"]

/-- A complete 6-segment artifact (both markers present). -/
def pGoodW : List String := ["r", "w", "h2_3_sto3g", "rhf", "fci", "0", "calc.out"]

/-- A 6-segment artifact whose text lacks the final-energy marker. -/
def pBadW : List String := ["r", "w", "h2_4_sto3g", "rhf", "fci", "1", "calc.out"]

/-- A still-running 6-segment artifact. -/
def pRunW : List String := ["r", "w", "h2_6_sto3g", "rhf", "fci", "2", "calc.out"]

/-- A 4-segment binary artifact. -/
def pNpyW : List String := ["r", "w", "h2_3_sto3g", "mo", "hf_energies.npy"]

/-- An artifact resolving outside the working root `["r"]`. -/
def pOutW : List String := ["other", "w", "h2_5_sto3g", "rhf", "fci", "0", "calc.out"]

/-- An artifact with an unsupported segment count (2 under the root). -/
def pShortW : List String := ["r", "oops.out"]

/-- Text of a successfully completed optimization log. -/
def goodTxtW : String :=
  "Nuclear-nuclear repulsion: 1.5\nOptimization was successful\nFinal Energy: -2.5\n"

/-- Text marked successful but missing the `Final Energy: ` marker. -/
def badTxtW : String := "Nuclear-nuclear repulsion: 1.5\nOptimization was successful\n"

/-- Text of a running log: one iteration data row, then a torn line. -/
def runTxtW : String := "Nuclear-nuclear repulsion: 1.5\nit 5 -2.5 pm 0.1\npartial"

/-- The concrete filesystem holding the fixtures. -/
def fsW : FS := fun p =>
  if p = pGoodW then some (Content.text goodTxtW)
  else if p = pBadW then some (Content.text badTxtW)
  else if p = pRunW then some (Content.text runTxtW)
  else if p = pNpyW then some (Content.npy [3, 7])
  else if p = pOutW then some (Content.text goodTxtW)
  else if p = pShortW then some (Content.text goodTxtW)
  else none

/-- Record selected in the `select_results` scenario. -/
def recSelW : Record :=
  { wfn := "hf", index := none, sigma := none, system := "h2_0", basis := "sto3g",
    orbital := "rhf", filename := "calc.out", energy := Val.str "-2.5",
    nuc_nuc := Val.str "1.5" }

/-- Record dropped by the system pattern in the `select_results` scenario. -/
def recDropW : Record :=
  { wfn := "hf", index := none, sigma := none, system := "lih_0", basis := "sto3g",
    orbital := "rhf", filename := "calc.out", energy := Val.str "-2.5",
    nuc_nuc := Val.str "1.5" }

/-- Provisioner state with directories at trailing indices 0 and 2 whose
stored structures are `"A"` and `"B"`. -/
def st9 : DirState :=
  { dirs := [fmtDir "x" "01" "b" "0", fmtDir "x" "01" "b" "2"],
    files := [((fmtDir "x" "01" "b" "0", "system.xyz2"), "A"),
              ((fmtDir "x" "01" "b" "2", "system.xyz2"), "B")] }

/-! ## Helper lemmas -/

theorem readText_ok_iff (fs : FS) (p : List String) (s : String) :
    readText fs p = Except.ok s ↔ fs p = some (Content.text s) := by
  unfold readText
  cases h : fs p with
  | none => simp
  | some c =>
    cases c with
    | text t => simp
    | npy l => simp

theorem processSplit_err_len (fs : FS) (b : Bool) (p : List String) (l : List String)
    (h4 : l.length ≠ 4) (h6 : l.length ≠ 6) :
    processSplit fs b p l = Except.error "NotImplementedError" := by
  match l with
  | [] => rfl
  | [_] => rfl
  | [_, _] => rfl
  | [_, _, _] => rfl
  | [_, _, _, _] => exact absurd rfl h4
  | [_, _, _, _, _] => rfl
  | [_, _, _, _, _, _] => exact absurd rfl h6
  | _ :: _ :: _ :: _ :: _ :: _ :: _ :: _ => rfl

theorem extractLoop_ok_forall (fs : FS) (cwd : List String) :
    ∀ (pairs : List (List String × Bool)) (l : List Record),
      extractLoop fs cwd pairs = Except.ok l →
      ∀ pc ∈ pairs, ∃ r, processFile fs cwd pc.2 pc.1 = Except.ok r := by
  intro pairs
  induction pairs with
  | nil =>
    intro l _ pc hpc
    exact absurd hpc (List.not_mem_nil pc)
  | cons q rest ih =>
    intro l hok pc hpc
    rw [extractLoop] at hok
    cases hq : processFile fs cwd q.2 q.1 with
    | error e => rw [hq] at hok; exact absurd hok (by simp)
    | ok r0 =>
      rw [hq] at hok
      rcases List.mem_cons.mp hpc with h | h
      · subst h; exact ⟨r0, hq⟩
      · cases r0 with
        | none => exact ih l hok pc h
        | some r1 =>
          cases hrest : extractLoop fs cwd rest with
          | error e => rw [hrest] at hok; exact absurd hok (by simp)
          | ok l2 => exact ih l2 hrest pc h

theorem statusLists_ok_sound (fs : FS) :
    ∀ (files : List (List String)) quad,
      statusLists fs files = Except.ok quad →
      ∀ p ∈ files,
        (classOf fs p = some CalcStatus.success → p ∈ quad.1) ∧
        (classOf fs p = some CalcStatus.running → p ∈ quad.2.2.2) := by
  intro files
  induction files with
  | nil =>
    intro quad _ p hp
    exact absurd hp (List.not_mem_nil p)
  | cons q rest ih =>
    intro quad hok p hp
    rw [statusLists] at hok
    cases hr : readText fs q with
    | error e => rw [hr] at hok; exact absurd hok (by simp)
    | ok s =>
      rw [hr] at hok
      cases hrest : statusLists fs rest with
      | error e => rw [hrest] at hok; exact absurd hok (by simp)
      | ok quad2 =>
        rw [hrest] at hok
        obtain ⟨a, b, c, d⟩ := quad2
        dsimp only at hok
        have hclq : classOf fs q = some (statusOf s) := by
          unfold classOf
          rw [(readText_ok_iff fs q s).mp hr]
        rcases List.mem_cons.mp hp with rfl | hmem
        · constructor
          · intro hcs
            rw [hclq] at hcs
            have hst : statusOf s = CalcStatus.success := by
              exact Option.some.inj hcs
            rw [hst] at hok
            cases hok
            exact List.mem_cons_self p a
          · intro hcs
            rw [hclq] at hcs
            have hst : statusOf s = CalcStatus.running := by
              exact Option.some.inj hcs
            rw [hst] at hok
            cases hok
            exact List.mem_cons_self p d
        · have hrec := ih (a, b, c, d) hrest p hmem
          cases hst : statusOf s with
          | success =>
            rw [hst] at hok; cases hok
            exact ⟨fun h => List.mem_cons_of_mem q (hrec.1 h), hrec.2⟩
          | optFailed =>
            rw [hst] at hok; cases hok
            exact hrec
          | codeFailed =>
            rw [hst] at hok; cases hok
            exact hrec
          | running =>
            rw [hst] at hok; cases hok
            exact ⟨hrec.1, fun h => List.mem_cons_of_mem q (hrec.2 h)⟩

/-! ## Claim theorems -/

/-- C10: for every match pattern whose last four characters are neither
`".out"` nor `".npy"`, `extract_results` raises (the `filenames` local is
never bound) before looking at any artifact: the outcome is an error for
every filesystem and every glob result. -/
theorem c10_pattern_dispatch (fs : FS) (cwd : List String) (pat : String)
    (globFiles : List (List String))
    (hout : last4 pat ≠ ".out") (hnpy : last4 pat ≠ ".npy") :
    extract_results fs cwd pat globFiles = Except.error "UnboundLocalError" := by
  unfold extract_results
  rw [if_neg hout, if_neg hnpy]

/-- C10 witness: a `.txt` pattern fails on the fixture filesystem. -/
theorem c10_witness :
    extract_results fsW cwdW "calc.txt" [pGoodW] = Except.error "UnboundLocalError" :=
  c10_pattern_dispatch fsW cwdW "calc.txt" [pGoodW] (by decide) (by decide)

/-- C2: the code diverges from this claim. The third `re.search` pattern
`'Traceback (most recent call last):'` contains an unescaped regex group,
so the searched literal is `"Traceback most recent call last:"`; a real
Python traceback header (with parentheses) therefore matches no marker
and the classifier returns `running`, not `codeFailed`. -/
theorem c2_traceback_not_codefailed :
    strContains "Traceback (most recent call last):\n  File a, line 1\nTypeError: x"
      "Traceback (most recent call last):" = true ∧
    strContains "Traceback (most recent call last):\n  File a, line 1\nTypeError: x"
      "Optimization was successful" = false ∧
    strContains "Traceback (most recent call last):\n  File a, line 1\nTypeError: x"
      "Optimization was not successful: " = false ∧
    statusOf "Traceback (most recent call last):\n  File a, line 1\nTypeError: x" =
      CalcStatus.running := by
  refine ⟨by decide, by decide, by decide, by decide⟩

theorem processSplit_marker_err (fs : FS) (p : List String)
    (a sb orb wfn idx fn : String) (s : String)
    (hfs : fs p = some (Content.text s)) (hne : ¬ (s = ""))
    (hmiss : searchCapture "Nuclear-nuclear repulsion: " s = none ∨
             searchCapture "Final Energy: " s = none) :
    processSplit fs true p [a, sb, orb, wfn, idx, fn] = Except.error "AttributeError" := by
  have hr : readText fs p = Except.ok s := (readText_ok_iff fs p s).mpr hfs
  rw [processSplit, hr]
  dsimp only
  rw [if_neg hne]
  cases hn : searchCapture "Nuclear-nuclear repulsion: " s with
  | none => rfl
  | some v =>
    dsimp only
    rcases hmiss with h | h
    · rw [h] at hn; exact absurd hn (by simp)
    · rw [if_pos rfl, h]

theorem isOkE_extract_out_false (fs : FS) (cwd : List String) (pat : String)
    (files : List (List String)) (p : List String) (b : Bool)
    (hpat : last4 pat = ".out")
    (hcl : (b = true ∧ classOf fs p = some CalcStatus.success) ∨
           (b = false ∧ classOf fs p = some CalcStatus.running))
    (hp : p ∈ files)
    (herr : ∀ r, processFile fs cwd b p ≠ Except.ok r) :
    isOkE (extract_results fs cwd pat files) = false := by
  unfold extract_results
  rw [if_pos hpat]
  cases hsl : statusLists fs files with
  | error e => rfl
  | ok quad =>
    obtain ⟨succ, o, c, run⟩ := quad
    dsimp only
    cases hel : extractLoop fs cwd
        (succ.map (fun p => (p, true)) ++ run.map (fun p => (p, false))) with
    | error e => rfl
    | ok l =>
      exfalso
      have hsound := statusLists_ok_sound fs files (succ, o, c, run) hsl p hp
      have hmem : (p, b) ∈ succ.map (fun p => (p, true)) ++ run.map (fun p => (p, false)) := by
        rcases hcl with ⟨hb, hcs⟩ | ⟨hb, hcs⟩
        · subst hb
          exact List.mem_append_left _ (List.mem_map.mpr ⟨p, hsound.1 hcs, rfl⟩)
        · subst hb
          exact List.mem_append_right _ (List.mem_map.mpr ⟨p, hsound.2 hcs, rfl⟩)
      obtain ⟨r, hr⟩ := extractLoop_ok_forall fs cwd _ l hel (p, b) hmem
      exact herr r hr

theorem isOkE_extract_npy_false (fs : FS) (cwd : List String) (pat : String)
    (files : List (List String)) (p : List String)
    (hout : last4 pat ≠ ".out") (hpat : last4 pat = ".npy")
    (hp : p ∈ files)
    (herr : ∀ r, processFile fs cwd true p ≠ Except.ok r) :
    isOkE (extract_results fs cwd pat files) = false := by
  unfold extract_results
  rw [if_neg hout, if_pos hpat]
  cases hel : extractLoop fs cwd (files.map (fun p => (p, true))) with
  | error e => rfl
  | ok l =>
    exfalso
    have hmem : (p, true) ∈ files.map (fun p => (p, true)) :=
      List.mem_map.mpr ⟨p, hp, rfl⟩
    obtain ⟨r, hr⟩ := extractLoop_ok_forall fs cwd _ l hel (p, true) hmem
    exact herr r hr

/-- C6: an artifact path under the working root whose root-relative
segment count is neither 4 nor 6 makes the whole `extract_results` call
raise (`NotImplementedError`) instead of being skipped: whenever such a
path is among the matched files that reach decoding (complete or running
for a `.out` pattern, any match for a `.npy` pattern), the extraction
call does not return a record list. -/
theorem c6_bad_layout_aborts (fs : FS) (cwd : List String) (pat : String)
    (files : List (List String)) (p : List String)
    (hp : p ∈ files) (hpre : leadsStr cwd p = true)
    (h4 : (p.drop cwd.length).length ≠ 4) (h6 : (p.drop cwd.length).length ≠ 6)
    (hdisp : (last4 pat = ".out" ∧
                (classOf fs p = some CalcStatus.success ∨
                 classOf fs p = some CalcStatus.running)) ∨
             last4 pat = ".npy") :
    isOkE (extract_results fs cwd pat files) = false := by
  have herr : ∀ b, ∀ r, processFile fs cwd b p ≠ Except.ok r := by
    intro b r h
    rw [processFile, if_pos hpre, processSplit_err_len fs b p _ h4 h6] at h
    exact absurd h (by simp)
  rcases hdisp with ⟨hpat, hcl⟩ | hpat
  · rcases hcl with hcs | hcs
    · exact isOkE_extract_out_false fs cwd pat files p true hpat (Or.inl ⟨rfl, hcs⟩) hp (herr true)
    · exact isOkE_extract_out_false fs cwd pat files p false hpat (Or.inr ⟨rfl, hcs⟩) hp (herr false)
  · have hout : last4 pat ≠ ".out" := by rw [hpat]; decide
    exact isOkE_extract_npy_false fs cwd pat files p hout hpat hp (herr true)

/-- C6 witness: a batch containing the 2-segment artifact aborts. -/
theorem c6_witness :
    isOkE (extract_results fsW cwdW "calc.out" [pGoodW, pShortW]) = false :=
  c6_bad_layout_aborts fsW cwdW "calc.out" [pGoodW, pShortW] pShortW
    (by decide) (by decide) (by decide) (by decide)
    (Or.inl ⟨by decide, Or.inl (by decide)⟩)

/-- C1 counterexample: a batch of two complete (Success) 6-segment text
artifacts in which the second lacks the `"Final Energy: "` marker. The
claim says only the bad record is excluded and the good one returned;
the code instead raises `AttributeError` (`re.search(...)` returned
`None` and `.group(1)` fails), so the whole call returns no records. -/
theorem c1_counterexample :
    statusOf goodTxtW = CalcStatus.success ∧
    statusOf badTxtW = CalcStatus.success ∧
    searchCapture "Final Energy: " badTxtW = none ∧
    extract_results fsW cwdW "calc.out" [pGoodW, pBadW] = Except.error "AttributeError" :=
  ⟨by decide, by decide, by decide, rfl⟩

/-- C1 (amended): an artifact in the complete (Success) partition of a
`.out` batch whose non-empty text lacks the nuclear-repulsion marker or
the final-energy marker makes the whole `extract_results` call raise
`AttributeError`: no record of any other artifact is returned. -/
theorem c1_missing_marker_aborts (fs : FS) (cwd : List String) (pat : String)
    (files : List (List String)) (p : List String) (s : String)
    (hpat : last4 pat = ".out") (hp : p ∈ files)
    (hfs : fs p = some (Content.text s)) (hst : statusOf s = CalcStatus.success)
    (hpre : leadsStr cwd p = true)
    (hsix : (p.drop cwd.length).length = 6) (hne : ¬ (s = ""))
    (hmiss : searchCapture "Nuclear-nuclear repulsion: " s = none ∨
             searchCapture "Final Energy: " s = none) :
    isOkE (extract_results fs cwd pat files) = false := by
  have hcl : classOf fs p = some CalcStatus.success := by
    unfold classOf; rw [hfs]; dsimp only; rw [hst]
  have herr : ∀ r, processFile fs cwd true p ≠ Except.ok r := by
    intro r h
    rw [processFile, if_pos hpre] at h
    match hl : p.drop cwd.length, hsix with
    | [a, sb, orb, wfn, idx, fn], _ =>
      rw [hl, processSplit_marker_err fs p a sb orb wfn idx fn s hfs hne hmiss] at h
      exact absurd h (by simp)
  exact isOkE_extract_out_false fs cwd pat files p true hpat (Or.inl ⟨rfl, hcl⟩) hp herr

/-- C1 witness: the amended theorem applied to the concrete batch. -/
theorem c1_witness :
    isOkE (extract_results fsW cwdW "calc.out" [pGoodW, pBadW]) = false :=
  c1_missing_marker_aborts fsW cwdW "calc.out" [pGoodW, pBadW] pBadW badTxtW
    (by decide) (by decide) (by decide) (by decide) (by decide) (by decide) (by decide)
    (Or.inr (by decide))

/-- C5: decoding of path-encoded metadata. A valid 4-segment artifact
(binary, 2-element array) yields a record with `wfn = "hf"` and no
sample-index field; any record produced from a 6-segment artifact carries
the path's 5th segment as its sample index; and in both forms `system`
and `basis` are the pieces of the second root-relative segment around
its last underscore (`rsplit('_', 1)`). -/
theorem c5_decoder (fs : FS) (cwd : List String) :
    (∀ p a sb orb fn e n sys bas, leadsStr cwd p = true →
       p.drop cwd.length = [a, sb, orb, fn] → fs p = some (Content.npy [e, n]) →
       rsplitU sb = some (sys, bas) →
       processFile fs cwd true p = Except.ok (some
         { wfn := "hf", index := none, sigma := none, system := sys, basis := bas,
           orbital := orb, filename := fn, energy := Val.num e, nuc_nuc := Val.num n })) ∧
    (∀ b p a sb orb wfn idx fn r, leadsStr cwd p = true →
       p.drop cwd.length = [a, sb, orb, wfn, idx, fn] →
       processFile fs cwd b p = Except.ok (some r) →
       r.wfn = wfn ∧ r.index = some idx ∧ rsplitU sb = some (r.system, r.basis)) := by
  constructor
  · intro p a sb orb fn e n sys bas hpre hsplit hfs hrs
    have hnp : readNpy fs p = some [e, n] := by unfold readNpy; rw [hfs]
    rw [processFile, if_pos hpre, hsplit]
    rw [processSplit, hnp]
    dsimp only
    rw [hrs]
  · intro b p a sb orb wfn idx fn r hpre hsplit h
    rw [processFile, if_pos hpre, hsplit] at h
    rw [processSplit] at h
    cases hr : readText fs p with
    | error e => rw [hr] at h; exact absurd h (by simp)
    | ok s =>
      rw [hr] at h
      dsimp only at h
      by_cases hse : s = ""
      · rw [if_pos hse] at h; exact absurd h (by simp)
      · rw [if_neg hse] at h
        cases hn : searchCapture "Nuclear-nuclear repulsion: " s with
        | none => rw [hn] at h; exact absurd h (by simp)
        | some nv =>
          rw [hn] at h
          dsimp only at h
          cases b with
          | true =>
            rw [if_pos rfl] at h
            cases hf : searchCapture "Final Energy: " s with
            | none => rw [hf] at h; exact absurd h (by simp)
            | some ev =>
              rw [hf] at h
              dsimp only at h
              cases hsb : rsplitU sb with
              | none => rw [hsb] at h; exact absurd h (by simp)
              | some pr =>
                rw [hsb] at h
                dsimp only at h
                simp only [Except.ok.injEq, Option.some.injEq] at h
                subst h
                exact ⟨rfl, rfl, by simp⟩
          | false =>
            rw [if_neg (by simp)] at h
            rcases hrev : (splitNl s).reverse with _ | ⟨l0, _ | ⟨l1, rest⟩⟩
            · rw [hrev] at h; exact absurd h (by simp)
            · rw [hrev] at h; exact absurd h (by simp)
            · rw [hrev] at h
              dsimp only at h
              by_cases hit : strContains l1 "Iterat" = true
              · rw [if_pos hit] at h; exact absurd h (by simp)
              · rw [if_neg hit] at h
                rcases hts : reSplitWs l1.data with
                  _ | ⟨t1, _ | ⟨t2, _ | ⟨e3, _ | ⟨t4, _ | ⟨s5, ts⟩⟩⟩⟩⟩
                · rw [hts] at h; exact absurd h (by simp)
                · rw [hts] at h; exact absurd h (by simp)
                · rw [hts] at h; exact absurd h (by simp)
                · rw [hts] at h; exact absurd h (by simp)
                · rw [hts] at h; exact absurd h (by simp)
                · rw [hts] at h
                  dsimp only at h
                  cases hsb : rsplitU sb with
                  | none => rw [hsb] at h; exact absurd h (by simp)
                  | some pr =>
                    rw [hsb] at h
                    dsimp only at h
                    simp only [Except.ok.injEq, Option.some.injEq] at h
                    subst h
                    exact ⟨rfl, rfl, by simp⟩

/-- C5 witness: the 4-segment binary fixture decodes to a `"hf"` record
without a sample index, and the record of the complete 6-segment fixture
carries sample index `"0"` (its path's 5th segment) with system/basis
split on the last underscore of `"h2_3_sto3g"`. -/
theorem c5_witness :
    processFile fsW cwdW true pNpyW = Except.ok (some
      { wfn := "hf", index := none, sigma := none, system := "h2_3", basis := "sto3g",
        orbital := "mo", filename := "hf_energies.npy", energy := Val.num 3,
        nuc_nuc := Val.num 7 }) ∧
    (∀ r, processFile fsW cwdW true pGoodW = Except.ok (some r) →
       r.wfn = "fci" ∧ r.index = some "0" ∧
       rsplitU "h2_3_sto3g" = some (r.system, r.basis)) :=
  ⟨(c5_decoder fsW cwdW).1 pNpyW "w" "h2_3_sto3g" "mo" "hf_energies.npy" 3 7 "h2_3" "sto3g"
      (by decide) (by decide) (by decide) (by decide),
   fun r => (c5_decoder fsW cwdW).2 true pGoodW "w" "h2_3_sto3g" "rhf" "fci" "0" "calc.out" r
      (by decide) (by decide)⟩

/-- C4: a 6-segment text artifact processed as Running (with non-empty
content and the nuclear-repulsion marker present) is handled through the
second-to-last element of the newline-split log: if that line contains
the iteration-header marker `"Iterat"` the artifact contributes no
record; otherwise the line is split on runs of whitespace and the record
stores the 3rd piece as its energy and the 5th piece as its uncertainty
(`sigma`). -/
theorem c4_running_parse (fs : FS) (cwd : List String) (p : List String)
    (a sb orb wfn idx fn : String) (s : String) (nucv : String)
    (l0 l1 : String) (rest : List String) (sys bas : String)
    (hpre : leadsStr cwd p = true)
    (hsplit : p.drop cwd.length = [a, sb, orb, wfn, idx, fn])
    (hfs : fs p = some (Content.text s)) (hne : ¬ (s = ""))
    (hnuc : searchCapture "Nuclear-nuclear repulsion: " s = some nucv)
    (hrev : (splitNl s).reverse = l0 :: l1 :: rest)
    (hrs : rsplitU sb = some (sys, bas)) :
    (strContains l1 "Iterat" = true → processFile fs cwd false p = Except.ok none) ∧
    (strContains l1 "Iterat" = false →
      ∀ t1 t2 e3 t4 s5 ts, reSplitWs l1.data = t1 :: t2 :: e3 :: t4 :: s5 :: ts →
        processFile fs cwd false p = Except.ok (some
          { wfn := wfn, index := some idx, sigma := some s5, system := sys,
            basis := bas, orbital := orb, filename := fn, energy := Val.str e3,
            nuc_nuc := Val.str nucv })) := by
  have hr : readText fs p = Except.ok s := (readText_ok_iff fs p s).mpr hfs
  constructor
  · intro hit
    rw [processFile, if_pos hpre, hsplit]
    rw [processSplit, hr]
    dsimp only
    rw [if_neg hne, hnuc]
    dsimp only
    rw [if_neg (by simp), hrev]
    dsimp only
    rw [if_pos hit]
  · intro hit t1 t2 e3 t4 s5 ts hts
    rw [processFile, if_pos hpre, hsplit]
    rw [processSplit, hr]
    dsimp only
    rw [if_neg hne, hnuc]
    dsimp only
    rw [if_neg (by simp), hrev]
    dsimp only
    rw [if_neg (by simp [hit]), hts]
    dsimp only
    rw [hrs]

/-- C4 witness: the running fixture's second-to-last line
`"it 5 -2.5 pm 0.1"` has no iteration header, and its 3rd and 5th
whitespace-separated pieces `"-2.5"` and `"0.1"` become the record's
energy and uncertainty. -/
theorem c4_witness :
    processFile fsW cwdW false pRunW = Except.ok (some
      { wfn := "fci", index := some "2", sigma := some "0.1", system := "h2_6",
        basis := "sto3g", orbital := "rhf", filename := "calc.out",
        energy := Val.str "-2.5", nuc_nuc := Val.str "1.5" }) :=
  (c4_running_parse fsW cwdW pRunW "w" "h2_6_sto3g" "rhf" "fci" "2" "calc.out"
      runTxtW "1.5" "partial" "it 5 -2.5 pm 0.1" ["Nuclear-nuclear repulsion: 1.5"]
      "h2_6" "sto3g" (by decide) (by decide) (by decide) (by decide) (by decide)
      (by decide) (by decide)).2 (by decide)
    "it" "5" "-2.5" "pm" "0.1" [] (by decide)

theorem statusLists_eq_ok (fs : FS) :
    ∀ files : List (List String), (∀ p ∈ files, (classOf fs p).isSome = true) →
      statusLists fs files = Except.ok
        (files.filter (fun p => classOf fs p = some CalcStatus.success),
         files.filter (fun p => classOf fs p = some CalcStatus.optFailed),
         files.filter (fun p => classOf fs p = some CalcStatus.codeFailed),
         files.filter (fun p => classOf fs p = some CalcStatus.running)) := by
  intro files
  induction files with
  | nil => intro _; rfl
  | cons q rest ih =>
    intro hall
    have hq := hall q (List.mem_cons_self q rest)
    have hrest := ih (fun p hp => hall p (List.mem_cons_of_mem q hp))
    obtain ⟨s, hs⟩ : ∃ s, fs q = some (Content.text s) := by
      unfold classOf at hq
      cases hfq : fs q with
      | none => rw [hfq] at hq; exact absurd hq (by simp)
      | some c =>
        cases c with
        | text t => exact ⟨t, rfl⟩
        | npy l => rw [hfq] at hq; exact absurd hq (by simp)
    have hr : readText fs q = Except.ok s := (readText_ok_iff fs q s).mpr hs
    have hcl : classOf fs q = some (statusOf s) := by unfold classOf; rw [hs]
    rw [statusLists, hr, hrest]
    dsimp only
    cases hst : statusOf s with
    | success =>
      rw [hst] at hcl
      simp [List.filter_cons, hcl]
    | optFailed =>
      rw [hst] at hcl
      simp [List.filter_cons, hcl]
    | codeFailed =>
      rw [hst] at hcl
      simp [List.filter_cons, hcl]
    | running =>
      rw [hst] at hcl
      simp [List.filter_cons, hcl]

theorem extractLoop_skip (fs : FS) (cwd : List String) :
    ∀ pairs : List (List String × Bool),
      extractLoop fs cwd pairs =
        extractLoop fs cwd (pairs.filter (fun pc => leadsStr cwd pc.1)) := by
  intro pairs
  induction pairs with
  | nil => rfl
  | cons q rest ih =>
    by_cases h : leadsStr cwd q.1 = true
    · rw [List.filter_cons, if_pos h]
      rw [extractLoop, extractLoop, ih]
    · have hq : processFile fs cwd q.2 q.1 = Except.ok none := by
        rw [processFile, if_neg h]
      rw [List.filter_cons, if_neg h]
      rw [extractLoop, hq]
      exact ih

theorem filter_map_pair (cwd : List String) (b : Bool) (l : List (List String)) :
    (l.map (fun p => (p, b))).filter (fun pc => leadsStr cwd pc.1) =
      (l.filter (fun p => leadsStr cwd p)).map (fun p => (p, b)) := by
  rw [List.filter_map]
  rfl

theorem filter_comm_two {α : Type} (p q : α → Bool) (l : List α) :
    (l.filter p).filter q = (l.filter q).filter p := by
  rw [List.filter_filter, List.filter_filter]
  apply List.filter_congr
  intro a _
  cases p a <;> cases q a <;> rfl

/-- C8: a matched artifact whose absolute path does not lie under the
working root is silently excluded: `extract_results` returns exactly what
it returns on the glob list restricted to paths under the root, so every
record comes from a path under the root. (For a `.out` pattern the
classifier must be able to read every matched file, as `glob` guarantees
for real matches.) -/
theorem c8_out_of_root (fs : FS) (cwd : List String) (pat : String)
    (files : List (List String))
    (hread : last4 pat = ".out" → ∀ p ∈ files, (classOf fs p).isSome = true) :
    extract_results fs cwd pat files =
      extract_results fs cwd pat (files.filter (fun p => leadsStr cwd p)) := by
  by_cases hout : last4 pat = ".out"
  · have h1 := statusLists_eq_ok fs files (hread hout)
    have h2 := statusLists_eq_ok fs (files.filter (fun p => leadsStr cwd p))
      (fun p hp => hread hout p (List.mem_of_mem_filter hp))
    unfold extract_results
    rw [if_pos hout, if_pos hout, h1, h2]
    dsimp only
    rw [extractLoop_skip fs cwd]
    rw [List.filter_append, filter_map_pair, filter_map_pair]
    rw [filter_comm_two (fun p => decide (classOf fs p = some CalcStatus.success))
      (fun p => leadsStr cwd p) files]
    rw [filter_comm_two (fun p => decide (classOf fs p = some CalcStatus.running))
      (fun p => leadsStr cwd p) files]
  · unfold extract_results
    rw [if_neg hout, if_neg hout]
    by_cases hnpy : last4 pat = ".npy"
    · rw [if_pos hnpy, if_pos hnpy]
      rw [extractLoop_skip fs cwd]
      rw [filter_map_pair]
    · rw [if_neg hnpy, if_neg hnpy]

/-- C8 witness: the batch with one artifact under the root and one
outside it extracts identically to the batch restricted to the root. -/
theorem c8_witness :
    extract_results fsW cwdW "calc.out" [pGoodW, pOutW] =
      extract_results fsW cwdW "calc.out"
        ([pGoodW, pOutW].filter (fun p => leadsStr cwdW p)) :=
  c8_out_of_root fsW cwdW "calc.out" [pGoodW, pOutW] (fun _ => by decide)

theorem dedupSorted_mem : ∀ (l : List ℚ) (v : ℚ), v ∈ dedupSorted l ↔ v ∈ l := by
  intro l
  induction l with
  | nil => intro v; exact Iff.rfl
  | cons a t ih =>
    intro v
    cases t with
    | nil => exact Iff.rfl
    | cons b t2 =>
      rw [dedupSorted]
      by_cases hab : a = b
      · rw [if_pos hab, ih v]
        subst hab
        simp only [List.mem_cons]
        tauto
      · rw [if_neg hab]
        simp only [List.mem_cons, ih v]

theorem dedupSorted_sorted_nodup :
    ∀ l : List ℚ, l.Sorted (fun a b : ℚ => a ≤ b) → (dedupSorted l).Nodup := by
  intro l
  induction l with
  | nil => intro _; exact List.nodup_nil
  | cons a t ih =>
    intro hs
    cases t with
    | nil => simp [dedupSorted]
    | cons b t2 =>
      have hs2 : (b :: t2).Sorted (fun a b : ℚ => a ≤ b) := (List.sorted_cons.mp hs).2
      have hab : a ≤ b := (List.sorted_cons.mp hs).1 b (List.mem_cons_self b t2)
      rw [dedupSorted]
      by_cases he : a = b
      · rw [if_pos he]; exact ih hs2
      · rw [if_neg he]
        refine List.nodup_cons.mpr ⟨?_, ih hs2⟩
        intro hmem
        have hm2 : a ∈ b :: t2 := (dedupSorted_mem _ a).mp hmem
        have hba : b ≤ a := by
          rcases List.mem_cons.mp hm2 with h | h
          · exact le_of_eq h.symm
          · exact (List.sorted_cons.mp hs2).1 a h
        exact he (le_antisymm hab hba)

theorem foldl_min_le (t : List ℚ) :
    ∀ a : ℚ, t.foldl min a ≤ a ∧ ∀ v ∈ t, t.foldl min a ≤ v := by
  induction t with
  | nil => intro a; exact ⟨le_refl a, fun v hv => absurd hv (List.not_mem_nil v)⟩
  | cons b t2 ih =>
    intro a
    have h := ih (min a b)
    refine ⟨le_trans h.1 (min_le_left a b), ?_⟩
    intro v hv
    rcases List.mem_cons.mp hv with rfl | hv2
    · exact le_trans h.1 (min_le_right a v)
    · exact h.2 v hv2

theorem foldl_min_mem (t : List ℚ) : ∀ a : ℚ, t.foldl min a ∈ a :: t := by
  induction t with
  | nil => intro a; exact List.mem_cons_self a []
  | cons b t2 ih =>
    intro a
    have h := ih (min a b)
    rcases List.mem_cons.mp h with he | hm
    · rw [List.foldl_cons, he]
      rcases min_choice a b with h1 | h1
      · rw [h1]; exact List.mem_cons_self a _
      · rw [h1]; exact List.mem_cons_of_mem a (List.mem_cons_self b t2)
    · exact List.mem_cons_of_mem a (List.mem_cons_of_mem b hm)

theorem listMin_mem (l : List ℚ) (h : ¬ (l = [])) : listMin l ∈ l := by
  cases l with
  | nil => exact absurd rfl h
  | cons a t => exact foldl_min_mem t a

theorem listMin_le (l : List ℚ) (v : ℚ) (hv : v ∈ l) : listMin l ≤ v := by
  cases l with
  | nil => exact absurd hv (List.not_mem_nil v)
  | cons a t =>
    rcases List.mem_cons.mp hv with rfl | h
    · exact (foldl_min_le t v).1
    · exact (foldl_min_le t a).2 v h

theorem uniqueSorted_mem (l : List ℚ) (v : ℚ) : v ∈ uniqueSorted l ↔ v ∈ l := by
  unfold uniqueSorted
  rw [dedupSorted_mem]
  exact (List.perm_insertionSort (fun a b : ℚ => a ≤ b) l).mem_iff

theorem uniqueSorted_nodup (l : List ℚ) : (uniqueSorted l).Nodup :=
  dedupSorted_sorted_nodup _ (List.sorted_insertionSort _ l)

theorem uniqueSorted_ne_nil (l : List ℚ) (h : ¬ (l = [])) : ¬ (uniqueSorted l = []) := by
  obtain ⟨v, hv⟩ := List.exists_mem_of_ne_nil l h
  exact List.ne_nil_of_mem ((uniqueSorted_mem l v).mpr hv)

theorem valsAt_ne_nil : ∀ (x : List ℤ) (y : List ℚ), x.length = y.length →
    ∀ i : ℤ, i ∈ x → ¬ (valsAt x y i = []) := by
  intro x
  induction x with
  | nil => intro y _ i hi; exact absurd hi (List.not_mem_nil i)
  | cons a t ih =>
    intro y hlen i hi
    cases y with
    | nil => exact absurd hlen (by simp)
    | cons b u =>
      unfold valsAt
      rw [List.zip_cons_cons, List.filterMap_cons]
      by_cases hai : a = i
      · rw [if_pos (show (a, b).1 = i from hai)]
        simp
      · rw [if_neg (show ¬ ((a, b).1 = i) from hai)]
        have hlen2 : t.length = u.length := by simpa using hlen
        have hmem : i ∈ t := by
          rcases List.mem_cons.mp hi with h | h
          · exact absurd h.symm hai
          · exact h
        exact ih u hlen2 i hmem

theorem filterMap_keyed_map (i : ℤ) :
    ∀ lp : List (ℤ × ℚ), (∀ pr ∈ lp, pr.1 = i) →
      lp.filterMap (fun pr => if pr.1 = i then some pr.2 else none) = lp.map Prod.snd := by
  intro lp
  induction lp with
  | nil => intro _; rfl
  | cons q t ih =>
    intro h
    simp only [List.filterMap_cons, List.map_cons]
    rw [if_pos (h q (List.mem_cons_self q t))]
    rw [ih (fun pr hp => h pr (List.mem_cons_of_mem q hp))]

theorem filterMap_keyed_nil (i : ℤ) :
    ∀ lp : List (ℤ × ℚ), (∀ pr ∈ lp, ¬ (pr.1 = i)) →
      lp.filterMap (fun pr => if pr.1 = i then some pr.2 else none) = [] := by
  intro lp
  induction lp with
  | nil => intro _; rfl
  | cons q t ih =>
    intro h
    simp only [List.filterMap_cons]
    rw [if_neg (h q (List.mem_cons_self q t))]
    exact ih (fun pr hp => h pr (List.mem_cons_of_mem q hp))

theorem filterMap_flatMap_blocks (f : ℕ → List (ℤ × ℚ))
    (hf : ∀ j : ℕ, ∀ pr ∈ f j, pr.1 = (j : ℤ)) (i : ℕ) :
    ∀ l : List ℕ, l.Nodup →
      (l.flatMap f).filterMap (fun pr => if pr.1 = (i : ℤ) then some pr.2 else none) =
        (if i ∈ l then (f i).map Prod.snd else []) := by
  intro l
  induction l with
  | nil => intro _; simp
  | cons j t ih =>
    intro hnd
    rw [List.flatMap_cons, List.filterMap_append]
    have hnd2 := List.nodup_cons.mp hnd
    by_cases hj : j = i
    · subst hj
      rw [filterMap_keyed_map (j : ℤ) (f j) (hf j)]
      have ht : (t.flatMap f).filterMap
          (fun pr => if pr.1 = (j : ℤ) then some pr.2 else none) = [] := by
        apply filterMap_keyed_nil
        intro pr hpr
        obtain ⟨k, hk, hprk⟩ := List.mem_flatMap.mp hpr
        rw [hf k pr hprk]
        intro hkj
        have hkj2 : k = j := by exact_mod_cast hkj
        exact hnd2.1 (hkj2 ▸ hk)
      rw [ht, if_pos (List.mem_cons_self j t)]
      simp
    · have hh : (f j).filterMap
          (fun pr => if pr.1 = (i : ℤ) then some pr.2 else none) = [] := by
        apply filterMap_keyed_nil
        intro pr hpr
        rw [hf j pr hpr]
        intro hji
        exact hj (by exact_mod_cast hji)
      rw [hh, List.nil_append, ih hnd2.2]
      by_cases hit : i ∈ t
      · rw [if_pos hit, if_pos (List.mem_cons_of_mem j hit)]
      · rw [if_neg hit, if_neg ?hnc]
        case hnc =>
          intro hc
          rcases List.mem_cons.mp hc with h | h
          · exact hj h.symm
          · exact hit h

theorem trimBlock_key (x : List ℤ) (y : List ℚ) (keep : String) (j : ℕ) :
    ∀ pr ∈ trimBlock x y keep j, pr.1 = (j : ℤ) := by
  intro pr hpr
  unfold trimBlock at hpr
  by_cases hm : (j : ℤ) ∈ x
  · rw [if_pos hm] at hpr
    by_cases h1 : keep = "all"
    · rw [if_pos h1] at hpr
      obtain ⟨v, _, hv⟩ := List.mem_map.mp hpr
      rw [← hv]
    · rw [if_neg h1] at hpr
      by_cases h2 : keep = "min"
      · rw [if_pos h2] at hpr
        rw [List.mem_singleton.mp hpr]
      · rw [if_neg h2] at hpr
        by_cases h3 : keep = "frequent"
        · rw [if_pos h3] at hpr
          rw [List.mem_singleton.mp hpr]
        · rw [if_neg h3] at hpr
          exact absurd hpr (List.not_mem_nil pr)
  · rw [if_neg hm] at hpr
    exact absurd hpr (List.not_mem_nil pr)

theorem atIdx_trim (x : List ℤ) (y : List ℚ) (keep : String) (i : ℤ) :
    atIdx (trim x y keep) i =
      (trimPairs x y keep).filterMap (fun pr => if pr.1 = i then some pr.2 else none) := by
  unfold atIdx trim
  rw [List.zip_unzip]

/-- C3: for every index/energy input and every scan index `i < 50`:
an index with no sample contributes no output entry at all; a populated
index contributes, under policy `"min"`, exactly one entry whose value is
a rounded sample value and a lower bound of all rounded sample values
(the numeric minimum of the rounded-and-deduplicated values), and, under
policy `"all"`, one entry per distinct rounded value (the entries at `i`
are duplicate-free and range over exactly the rounded sample values). -/
theorem c3_trim_reduce (x : List ℤ) (y : List ℚ) (hlen : x.length = y.length)
    (i : ℕ) (hi : i < 50) :
    (((i : ℤ) ∉ x →
        atIdx (trim x y "min") (i : ℤ) = [] ∧ atIdx (trim x y "all") (i : ℤ) = []) ∧
     ((i : ℤ) ∈ x →
        (∃ m, atIdx (trim x y "min") (i : ℤ) = [m] ∧
           m ∈ (valsAt x y (i : ℤ)).map round8 ∧
           ∀ v ∈ (valsAt x y (i : ℤ)).map round8, m ≤ v) ∧
        ((atIdx (trim x y "all") (i : ℤ)).Nodup ∧
         ∀ v : ℚ, v ∈ atIdx (trim x y "all") (i : ℤ) ↔
           v ∈ (valsAt x y (i : ℤ)).map round8))) := by
  have hmem : i ∈ List.range 50 := List.mem_range.mpr hi
  have hat : ∀ keep, atIdx (trim x y keep) (i : ℤ) =
      (trimBlock x y keep i).map Prod.snd := by
    intro keep
    rw [atIdx_trim]
    unfold trimPairs
    rw [filterMap_flatMap_blocks (trimBlock x y keep) (trimBlock_key x y keep) i
      (List.range 50) (List.nodup_range 50), if_pos hmem]
  constructor
  · intro hnx
    constructor <;> rw [hat] <;> unfold trimBlock <;> rw [if_neg hnx] <;> rfl
  · intro hx
    have hyne : ¬ (valsAt x y (i : ℤ) = []) := valsAt_ne_nil x y hlen (i : ℤ) hx
    have hyr : ¬ ((valsAt x y (i : ℤ)).map round8 = []) := by
      intro h
      exact hyne (List.map_eq_nil_iff.mp h)
    have hune := uniqueSorted_ne_nil _ hyr
    constructor
    · refine ⟨listMin (uniqueSorted ((valsAt x y (i : ℤ)).map round8)), ?_, ?_, ?_⟩
      · rw [hat]
        unfold trimBlock
        rw [if_pos hx, if_neg (by decide), if_pos rfl]
        rfl
      · exact (uniqueSorted_mem _ _).mp (listMin_mem _ hune)
      · intro v hv
        exact listMin_le _ v ((uniqueSorted_mem _ v).mpr hv)
    · have hall : atIdx (trim x y "all") (i : ℤ) =
          uniqueSorted ((valsAt x y (i : ℤ)).map round8) := by
        rw [hat]
        unfold trimBlock
        rw [if_pos hx, if_pos rfl]
        rw [List.map_map]
        have hid : (Prod.snd ∘ fun v : ℚ => ((i : ℤ), v)) = id := rfl
        rw [hid, List.map_id]
      rw [hall]
      exact ⟨uniqueSorted_nodup _, fun v => uniqueSorted_mem _ v⟩

/-- C3 witness: the scenario `x = [3, 3, 7]`, `y = [1, 2, 1]` at `i = 3`
instantiates the reduction theorem. -/
theorem c3_witness :
    (((3 : ℤ) ∉ ([3, 3, 7] : List ℤ) →
        atIdx (trim [3, 3, 7] [1, 2, 1] "min") 3 = [] ∧
        atIdx (trim [3, 3, 7] [1, 2, 1] "all") 3 = []) ∧
     ((3 : ℤ) ∈ ([3, 3, 7] : List ℤ) →
        (∃ m, atIdx (trim [3, 3, 7] [1, 2, 1] "min") 3 = [m] ∧
           m ∈ (valsAt [3, 3, 7] [1, 2, 1] 3).map round8 ∧
           ∀ v ∈ (valsAt [3, 3, 7] [1, 2, 1] 3).map round8, m ≤ v) ∧
        ((atIdx (trim [3, 3, 7] [1, 2, 1] "all") 3).Nodup ∧
         ∀ v : ℚ, v ∈ atIdx (trim [3, 3, 7] [1, 2, 1] "all") 3 ↔
           v ∈ (valsAt [3, 3, 7] [1, 2, 1] 3).map round8))) :=
  c3_trim_reduce [3, 3, 7] [1, 2, 1] rfl 3 (by decide)

theorem selectLoop_eq (sysPat basis orb wfn : String) :
    ∀ results : List Record,
      (∀ r ∈ results, keepR sysPat basis orb wfn r = true → goodRec r = true) →
      selectLoop sysPat basis orb wfn results = Except.ok
        ((results.filter (keepR sysPat basis orb wfn)).map
           (fun r => ((rsplitU r.system).map Prod.snd).getD ""),
         (results.filter (keepR sysPat basis orb wfn)).map selY,
         (results.filter (keepR sysPat basis orb wfn)).map Record.sigma) := by
  intro results
  induction results with
  | nil => intro _; rfl
  | cons r rest ih =>
    intro h
    have hrest := ih (fun q hq hk => h q (List.mem_cons_of_mem r hq) hk)
    by_cases hk : keepR sysPat basis orb wfn r = true
    · have hg := h r (List.mem_cons_self r rest) hk
      unfold goodRec at hg
      rw [selectLoop, if_pos hk]
      cases hsb : rsplitU r.system with
      | none => rw [hsb] at hg; simp at hg
      | some pr =>
        rw [hsb] at hg
        dsimp only
        cases he : pyFloat r.energy with
        | none => rw [he] at hg; simp at hg
        | some e =>
          cases hn : pyFloat r.nuc_nuc with
          | none => rw [he, hn] at hg; simp at hg
          | some n =>
            dsimp only
            rw [hrest]
            dsimp only
            rw [List.filter_cons, if_pos hk]
            simp [selY, hsb, he, hn]
    · rw [selectLoop, if_neg hk, List.filter_cons, if_neg hk]
      exact hrest

theorem convInts_eq (g : Record → String) :
    ∀ l : List Record, (∀ r ∈ l, (parsePyInt (g r)).isSome = true) →
      convInts (l.map g) = Except.ok (l.map (fun r => (parsePyInt (g r)).getD 0)) := by
  intro l
  induction l with
  | nil => intro _; rfl
  | cons r t ih =>
    intro h
    rw [List.map_cons, convInts]
    cases hp : parsePyInt (g r) with
    | none =>
      have := h r (List.mem_cons_self r t)
      rw [hp] at this
      exact absurd this (by simp)
    | some v =>
      dsimp only
      rw [ih (fun q hq => h q (List.mem_cons_of_mem r hq))]
      dsimp only
      simp [hp]

theorem convErrs_eq :
    ∀ l : List Record,
      (∀ r ∈ l, ∀ s, r.sigma = some s → (parsePyFloat s).isSome = true) →
      convErrs (l.map Record.sigma) = Except.ok (l.map selErr) := by
  intro l
  induction l with
  | nil => intro _; rfl
  | cons r t ih =>
    intro h
    have hrest := ih (fun q hq s hs => h q (List.mem_cons_of_mem r hq) s hs)
    rw [List.map_cons]
    cases hs : r.sigma with
    | none =>
      rw [convErrs, hrest]
      dsimp only
      simp [selErr, hs]
    | some s =>
      have hp := h r (List.mem_cons_self r t) s hs
      cases hps : parsePyFloat s with
      | none => rw [hps] at hp; exact absurd hp (by simp)
      | some v =>
        rw [convErrs, hps]
        dsimp only
        rw [hrest]
        dsimp only
        simp [selErr, hs, hps]

/-- C7: `select_results` keeps exactly the records whose `system` matches
the shell-wildcard pattern and whose `basis`, `orbital` and `wfn` equal
the given values, in filter-match order, and returns three equal-length
sequences; under the precondition that every kept record's `system` has
an underscore followed by a numeric suffix (and parseable numeric
fields), each kept record contributes the numeric suffix of `system`
after its last underscore as index, `float(energy) + float(nuc_nuc)` as
energy, and `0` as uncertainty when it has no `sigma` field (its stored
`sigma` otherwise). -/
theorem c7_select_results (results : List Record) (sysPat basis orb wfn : String)
    (h : ∀ r ∈ results, keepR sysPat basis orb wfn r = true → goodRec r = true) :
    select_results results sysPat basis orb wfn = Except.ok
      ((results.filter (keepR sysPat basis orb wfn)).map selX,
       (results.filter (keepR sysPat basis orb wfn)).map selY,
       (results.filter (keepR sysPat basis orb wfn)).map selErr) ∧
    ((results.filter (keepR sysPat basis orb wfn)).map selX).length =
        ((results.filter (keepR sysPat basis orb wfn)).map selY).length ∧
    ((results.filter (keepR sysPat basis orb wfn)).map selY).length =
        ((results.filter (keepR sysPat basis orb wfn)).map selErr).length := by
  have hkeep : ∀ r ∈ results.filter (keepR sysPat basis orb wfn), goodRec r = true := by
    intro r hr
    exact h r (List.mem_of_mem_filter hr) (List.of_mem_filter hr)
  refine ⟨?_, by simp, by simp⟩
  unfold select_results
  rw [selectLoop_eq sysPat basis orb wfn results h]
  dsimp only
  rw [convInts_eq (fun r => ((rsplitU r.system).map Prod.snd).getD "")
    (results.filter (keepR sysPat basis orb wfn)) ?hint]
  case hint =>
    intro r hr
    have hg := hkeep r hr
    unfold goodRec at hg
    cases hsb : rsplitU r.system with
    | none => rw [hsb] at hg; simp at hg
    | some pr =>
      rw [hsb] at hg
      simp only [Bool.and_eq_true] at hg
      simpa [hsb] using hg.1.1.1
  dsimp only
  rw [convErrs_eq (results.filter (keepR sysPat basis orb wfn)) ?hsig]
  case hsig =>
    intro r hr s hs
    have hg := hkeep r hr
    unfold goodRec at hg
    simp only [Bool.and_eq_true] at hg
    have := hg.2
    rw [hs] at this
    exact this
  dsimp only
  have hx : (results.filter (keepR sysPat basis orb wfn)).map
      (fun r => (parsePyInt (((rsplitU r.system).map Prod.snd).getD "")).getD 0) =
      (results.filter (keepR sysPat basis orb wfn)).map selX := by
    apply List.map_congr_left
    intro r hr
    have hg := hkeep r hr
    unfold goodRec at hg
    cases hsb : rsplitU r.system with
    | none => rw [hsb] at hg; simp at hg
    | some pr => simp [selX, hsb]
  rw [hx]

/-- C7 witness: the two-record scenario (`h2_0` kept, `lih_0` dropped by
the pattern `"h2_*"`) instantiates the selection theorem. -/
theorem c7_witness :
    select_results [recSelW, recDropW] "h2_*" "sto3g" "rhf" "hf" = Except.ok
      (([recSelW, recDropW].filter (keepR "h2_*" "sto3g" "rhf" "hf")).map selX,
       ([recSelW, recDropW].filter (keepR "h2_*" "sto3g" "rhf" "hf")).map selY,
       ([recSelW, recDropW].filter (keepR "h2_*" "sto3g" "rhf" "hf")).map selErr) ∧
    (([recSelW, recDropW].filter (keepR "h2_*" "sto3g" "rhf" "hf")).map selX).length =
        (([recSelW, recDropW].filter (keepR "h2_*" "sto3g" "rhf" "hf")).map selY).length ∧
    (([recSelW, recDropW].filter (keepR "h2_*" "sto3g" "rhf" "hf")).map selY).length =
        (([recSelW, recDropW].filter (keepR "h2_*" "sto3g" "rhf" "hf")).map selErr).length :=
  c7_select_results [recSelW, recDropW] "h2_*" "sto3g" "rhf" "hf" (by decide)

theorem mkdirWrite_frame (st : DirState) (dirname basis xyz : String) (st' : DirState)
    (hok : mkdirWrite st dirname basis xyz = Except.ok st') (d : String) (hd : d ∈ st.dirs) :
    getFile st' (d, "system.xyz2") = getFile st (d, "system.xyz2") := by
  unfold mkdirWrite at hok
  by_cases hdir : dirname ∈ st.dirs
  · rw [if_pos hdir] at hok
    exact absurd hok (by simp)
  · rw [if_neg hdir] at hok
    have hne2 : ¬ (dirname = d) := fun h => hdir (h ▸ hd)
    cases hg : getFile st ("basis", basis ++ ".gbs") with
    | some g =>
      rw [hg] at hok
      simp only [Except.ok.injEq] at hok
      subst hok
      simp [getFile, List.find?_cons, hne2]
    | none =>
      rw [hg] at hok
      simp only [Except.ok.injEq] at hok
      subst hok
      simp [getFile, List.find?_cons, hne2]

/-- C9 (amended): one provisioner step whose target directory name
already exists. If the generated structure equals the `system.xyz2` of
some sibling matching the glob, the step is a no-op (the state is
returned unchanged, so nothing is written). Otherwise the step moves to
the trailing index `i + len(other_dirnames)`: when that name is free the
directory is created with the structure file written inside it, and when
it is already taken the step aborts with `FileExistsError` before
writing anything. In every non-raising outcome no existing directory's
`system.xyz2` is changed. -/
theorem c9_make_dirs (name se basis : String) (st : DirState) (i : ℕ) (xyz : String)
    (hex : fmtDir name se basis (toString i) ∈ st.dirs) :
    (sibMatch name se basis st xyz = true →
      makeDirsStep name se basis st i xyz = Except.ok st) ∧
    (sibMatch name se basis st xyz = false →
      (bumpDir name se basis st i ∉ st.dirs →
        ∃ st', makeDirsStep name se basis st i xyz = Except.ok st' ∧
          st'.dirs = bumpDir name se basis st i :: st.dirs ∧
          ((bumpDir name se basis st i, "system.xyz2"), xyz) ∈ st'.files) ∧
      (bumpDir name se basis st i ∈ st.dirs →
        makeDirsStep name se basis st i xyz = Except.error "FileExistsError")) ∧
    (∀ st', makeDirsStep name se basis st i xyz = Except.ok st' →
      ∀ d ∈ st.dirs, getFile st' (d, "system.xyz2") = getFile st (d, "system.xyz2")) := by
  refine ⟨?_, ?_, ?_⟩
  · intro hm
    unfold makeDirsStep
    rw [if_pos hex, if_pos hm]
  · intro hnm
    constructor
    · intro hfree
      unfold makeDirsStep
      rw [if_pos hex, if_neg (by simp [hnm])]
      unfold mkdirWrite
      rw [if_neg hfree]
      cases hg : getFile st ("basis", basis ++ ".gbs") with
      | some g =>
        refine ⟨_, rfl, rfl, ?_⟩
        exact List.mem_cons_of_mem _ (List.mem_cons_self _ _)
      | none =>
        exact ⟨_, rfl, rfl, List.mem_cons_self _ _⟩
    · intro htaken
      unfold makeDirsStep
      rw [if_pos hex, if_neg (by simp [hnm])]
      unfold mkdirWrite
      rw [if_pos htaken]
  · intro st' hok d hd
    unfold makeDirsStep at hok
    rw [if_pos hex] at hok
    by_cases hm : sibMatch name se basis st xyz = true
    · rw [if_pos hm] at hok
      simp only [Except.ok.injEq] at hok
      subst hok
      rfl
    · rw [if_neg hm] at hok
      exact mkdirWrite_frame st (bumpDir name se basis st i) basis xyz st' hok d hd

/-- C9 counterexample: directories with trailing indices 0 and 2 exist
(contents `"A"` and `"B"`), the new structure `"C"` matches neither, and
the step for index 0 must move to index `0 + 2 = 2` - which is already
taken, so the step raises `FileExistsError` instead of creating a
directory with a new trailing index. -/
theorem c9_counterexample :
    fmtDir "x" "01" "b" (toString 0) ∈ st9.dirs ∧
    sibMatch "x" "01" "b" st9 "C" = false ∧
    makeDirsStep "x" "01" "b" st9 0 "C" = Except.error "FileExistsError" :=
  ⟨by decide, by decide, rfl⟩

/-- C9 witness: feeding back the stored structure `"A"` is recognized as
a sibling match and the step is skipped with the state unchanged. -/
theorem c9_witness :
    makeDirsStep "x" "01" "b" st9 0 "A" = Except.ok st9 :=
  (c9_make_dirs "x" "01" "b" st9 0 "A" (by decide)).1 (by decide)

end CalcScripts
